import Mathlib

/-
Verification of the grid cell-state engine of hbsnow-sandbox/example-map-maker.

The engine lives in `src/features/map/map.tsx` (the variant with undo/redo
history).  Its state is:

  * a sparse cell store: a JS `Map<string, {color: string, hasOutline: bool}>`
    keyed by `"row,col"` strings.  All keys are produced by the template
    `` `${row},${col}` `` from integer row/col and parsed back with
    `split(",").map(Number)`, so the key space is exactly `Int × Int` and we
    model the store extensionally, as a function `Int × Int → Option CellAttrs`
    (absence of a record = `none`).  No operation relevant to the verified
    claims depends on the JS `Map` insertion order.
  * a history: a list of snapshots (`cells` plus a `lastAction` label) and a
    pointer `historyIndex` into it.

Operations modelled below, each translated from the source:
  `updateHistory`, `handleCellToggle`, `clearOutOfBoundsCells`,
  `clearAllCells`, `fillEnclosedAreas` (with its recursive `dfs`),
  `undo`, `redo`, `restoreHistory`.
-/

/-- A grid coordinate `(row, col)`.  JS numbers here are always integers
(they are produced by loop counters or parsed from `"row,col"` keys). -/
abbrev Coord := Int × Int

/-- The attributes stored for an active cell: `{ color, hasOutline }`. -/
structure CellAttrs where
  color : String
  hasOutline : Bool
deriving DecidableEq

/-- The cell store `Map<string, {color, hasOutline}>`, modelled extensionally:
`m k = some a` iff the map holds a record `a` at key `k`. -/
abbrev CellMap := Coord → Option CellAttrs

/-- `new Map()` — the empty store. -/
def emptyCells : CellMap := fun _ => none

/-- `map.set(key, a)` — insert or overwrite the record at `key`. -/
def mapInsert (m : CellMap) (k : Coord) (a : CellAttrs) : CellMap :=
  fun j => if j = k then some a else m j

/-- `map.delete(key)` — remove the record at `key` (if any). -/
def mapErase (m : CellMap) (k : Coord) : CellMap :=
  fun j => if j = k then none else m j

/-- One history entry: `{ cells, lastAction }` (map.tsx lines 36-39). -/
structure HistoryEntry where
  cells : CellMap
  lastAction : String

/-- The history slice of the component state: the `history` array and the
`historyIndex` pointer (map.tsx lines 52-55). -/
structure GridState where
  history : List HistoryEntry
  historyIndex : Nat

/-- The single entry the history is initialised with:
`{ cells: new Map(), lastAction: "Initial state" }`. -/
def initialEntry : HistoryEntry := ⟨emptyCells, "Initial state"⟩

/-- The initial component state: one empty snapshot, pointer 0. -/
def initialState : GridState := ⟨[initialEntry], 0⟩

/-- `cellStates = history[historyIndex].cells` (map.tsx lines 59-62).  The
source indexes unconditionally; under the history invariant the index is
always in range, so the `getD` default is never reached. -/
def cellStates (st : GridState) : CellMap :=
  (st.history.getD st.historyIndex initialEntry).cells

/-- `updateHistory` (map.tsx lines 64-77): truncate the history to
`[0..historyIndex]` (`slice(0, historyIndex + 1)`), append the new snapshot,
and advance the pointer by one. -/
def updateHistory (newCellStates : CellMap) (action : String)
    (st : GridState) : GridState :=
  ⟨st.history.take (st.historyIndex + 1) ++ [⟨newCellStates, action⟩],
   st.historyIndex + 1⟩

/-- `handleCellToggle` (map.tsx lines 79-103): if the record at `(row, col)`
exists and its attributes equal the currently selected ones, delete it;
otherwise insert/overwrite.  Either way, commit the result.  There is no
bounds check on `(row, col)` anywhere in this function. -/
def handleCellToggle (selectedColor : String) (showOutline : Bool)
    (row col : Int) (st : GridState) : GridState :=
  let cs := cellStates st
  if cs (row, col) = some ⟨selectedColor, showOutline⟩ then
    updateHistory (mapErase cs (row, col))
      (s!"Cleared cell ({row}, {col})") st
  else
    updateHistory (mapInsert cs (row, col) ⟨selectedColor, showOutline⟩)
      (s!"Colored cell ({row}, {col}) with {selectedColor}") st

/-- The filtering step of `clearOutOfBoundsCells` (map.tsx lines 126-138):
keep exactly the records whose parsed coordinate satisfies
`row < rowCount && col < colCount`.  Note the source checks only the upper
bounds — there is no `row >= 0` / `col >= 0` test. -/
def clampCells (s : CellMap) (rowCount colCount : Int) : CellMap :=
  fun k => if k.1 < rowCount ∧ k.2 < colCount then s k else none

/-- `clearOutOfBoundsCells` (map.tsx lines 126-138): commit the filtered
store with the label `"Cleared out-of-bounds cells"`. -/
def clearOutOfBoundsCells (rowCount colCount : Int) (st : GridState) :
    GridState :=
  updateHistory (clampCells (cellStates st) rowCount colCount)
    "Cleared out-of-bounds cells" st

/-- `clearAllCells` (map.tsx lines 140-142): a single
`updateHistory(new Map(), "Cleared all cells")`. -/
def clearAllCells (st : GridState) : GridState :=
  updateHistory emptyCells "Cleared all cells" st

/-- `undo` (map.tsx lines 208-212): decrement the pointer if it is
positive, otherwise do nothing. -/
def undo (st : GridState) : GridState :=
  if 0 < st.historyIndex then ⟨st.history, st.historyIndex - 1⟩ else st

/-- `redo` (map.tsx lines 214-218): increment the pointer if it is below
`history.length - 1`, otherwise do nothing. -/
def redo (st : GridState) : GridState :=
  if st.historyIndex < st.history.length - 1 then
    ⟨st.history, st.historyIndex + 1⟩
  else st

/-- `restoreHistory` (map.tsx lines 220-227): jump to `index` if
`0 ≤ index < history.length`, otherwise do nothing. -/
def restoreHistory (index : Int) (st : GridState) : GridState :=
  if 0 ≤ index ∧ index < st.history.length then
    ⟨st.history, index.toNat⟩
  else st

/-- The history invariant: the pointer is a valid index into a non-empty
snapshot list. -/
def HistInv (st : GridState) : Prop :=
  st.historyIndex < st.history.length ∧ 1 ≤ st.history.length

/-! ## Flood fill (`fillEnclosedAreas`, map.tsx lines 144-206) -/

/-- `isValid(row, col)` (map.tsx lines 147-148):
`row >= 0 && row < rowCount && col >= 0 && col < colCount`. -/
def ValidP (rowCount colCount : Int) (p : Coord) : Prop :=
  0 ≤ p.1 ∧ p.1 < rowCount ∧ 0 ≤ p.2 ∧ p.2 < colCount

instance (R C : Int) (p : Coord) : Decidable (ValidP R C p) := by
  unfold ValidP; infer_instance

/-- `isColored(row, col)` (map.tsx lines 145-146): `cellStates.has(key)`. -/
def isColored (s : CellMap) (p : Coord) : Bool := (s p).isSome

/-- Absence of a record: the cell is inactive. -/
def FreeP (s : CellMap) (p : Coord) : Prop := s p = none

/-- The 4-direction neighbour list, in the order the source explores it:
`[[-1,0],[1,0],[0,-1],[0,1]]` applied as `(row+dx, col+dy)`
(map.tsx lines 163-169). -/
def nbrs (p : Coord) : List Coord :=
  [(p.1 - 1, p.2), (p.1 + 1, p.2), (p.1, p.2 - 1), (p.1, p.2 + 1)]

/-- The recursive `dfs` (map.tsx lines 150-177), with the 4-iteration
`for` loop over the literal `directions` array unrolled into the four
sequential calls it performs (with the source's early `return false`).
The JS function recurses without bound; `fuel` is the standard
termination device — `fillCells` below supplies `rowCount*colCount + 1`,
which is proved never to run out (`dfsF_spec` needs
`(goodFinset \ visited).card < fuel`).  The mutated `visited` set is
threaded explicitly. -/
def dfsF (R C : Int) (s : CellMap) :
    Nat → Coord → Finset Coord → Bool × Finset Coord
  | 0, _, visited => (false, visited)
  | fuel + 1, p, visited =>
    if ¬ ValidP R C p then (false, visited)
    else if isColored s p then (true, visited)
    else if p ∈ visited then (true, visited)
    else
      let r1 := dfsF R C s fuel (p.1 - 1, p.2) (insert p visited)
      if ¬ r1.1 then (false, r1.2)
      else
        let r2 := dfsF R C s fuel (p.1 + 1, p.2) r1.2
        if ¬ r2.1 then (false, r2.2)
        else
          let r3 := dfsF R C s fuel (p.1, p.2 - 1) r2.2
          if ¬ r3.1 then (false, r3.2)
          else dfsF R C s fuel (p.1, p.2 + 1) r3.2

/-- Fuel supplied to `dfsF`: one more than the number of grid cells, an
upper bound on the number of cells any one traversal can insert. -/
def fillFuel (rowCount colCount : Int) : Nat :=
  rowCount.toNat * colCount.toNat + 1

/-- The inner marking loop (map.tsx lines 187-192): set every visited cell
to the selected paint attributes.  All writes carry the same value, so the
iteration order of the JS `Set` is immaterial and the loop is modelled
extensionally. -/
def paintAll (m : CellMap) (v : Finset Coord) (a : CellAttrs) : CellMap :=
  fun k => if k ∈ v then some a else m k

/-- One iteration of the outer double loop (map.tsx lines 181-196):
if the cell is uncoloured **in the original store**, run `dfs` from it with
a fresh `visited` set, and on success paint the visited set. -/
def fillStep (R C : Int) (s : CellMap) (paint : CellAttrs)
    (m : CellMap) (p : Coord) : CellMap :=
  if isColored s p then m
  else
    let r := dfsF R C s (fillFuel R C) p ∅
    if r.1 then paintAll m r.2 paint else m

/-- The row-major list of in-grid coordinates the outer double loop
ranges over (`for row in 0..rowCount, for col in 0..colCount`). -/
def coordList (R C : Int) : List Coord :=
  (List.range R.toNat).flatMap
    (fun r => (List.range C.toNat).map
      (fun c => (Int.ofNat r, Int.ofNat c)))

/-- The store produced by `fillEnclosedAreas` (map.tsx lines 179-198)
before it is committed: start from a copy of the current store and run the
double loop. -/
def fillCells (R C : Int) (s : CellMap) (paint : CellAttrs) : CellMap :=
  (coordList R C).foldl (fillStep R C s paint) s

/-- `fillEnclosedAreas` (map.tsx lines 144-206): commit the filled store
with label `"Filled enclosed areas"`; the paint attributes are the
currently selected colour and outline flag. -/
def fillEnclosedAreas (selectedColor : String) (showOutline : Bool)
    (R C : Int) (st : GridState) : GridState :=
  updateHistory (fillCells R C (cellStates st) ⟨selectedColor, showOutline⟩)
    "Filled enclosed areas" st

/-! ## Declarative view of the flood fill, from the claim's words -/

/-- An in-grid cell that is both valid and inactive — the cells `dfs` can
visit. -/
def Good (R C : Int) (s : CellMap) (p : Coord) : Prop :=
  ValidP R C p ∧ FreeP s p

/-- 4-directional adjacency. -/
def Adj (p q : Coord) : Prop := q ∈ nbrs p

/-- Connectivity through inactive in-grid cells (both endpoints of every
step inactive and in grid). -/
def Reach (R C : Int) (s : CellMap) : Coord → Coord → Prop :=
  Relation.ReflTransGen (fun a b => Good R C s a ∧ Good R C s b ∧ Adj a b)

/-- The region of `p` can reach the grid boundary: some inactive cell
connected to `p` has a neighbour outside the grid. -/
def EscapesP (R C : Int) (s : CellMap) (p : Coord) : Prop :=
  ∃ q, Reach R C s p q ∧ ∃ d, Adj q d ∧ ¬ ValidP R C d

/-- An inactive in-grid cell whose maximal 4-connected inactive region
cannot reach the grid boundary without crossing an active cell — exactly
the cells the claim says the fill must activate. -/
def EnclosedCell (R C : Int) (s : CellMap) (p : Coord) : Prop :=
  Good R C s p ∧ ¬ EscapesP R C s p

/-- The finite set of `Good` cells, used to measure `dfsF`'s fuel. -/
def goodFinset (R C : Int) (s : CellMap) : Finset Coord :=
  ((Finset.Ico (0 : Int) R) ×ˢ (Finset.Ico (0 : Int) C)).filter
    (fun p => s p = none)

/-- `dfs` again (map.tsx lines 150-177), instrumented with the depth of the
call tree it actually performs: the third component is the maximal nesting
of recursive `dfs` invocations (1 for a call that returns without
recursing).  The branching structure, tests and early exits are exactly
those of `dfsF`; only the depth bookkeeping is added.  This measures the
JS call-stack consumption of the source's unbounded recursion. -/
def dfsD (R C : Int) (s : CellMap) :
    Nat → Coord → Finset Coord → Bool × Finset Coord × Nat
  | 0, _, visited => (false, visited, 0)
  | fuel + 1, p, visited =>
    if ¬ ValidP R C p then (false, visited, 1)
    else if isColored s p then (true, visited, 1)
    else if p ∈ visited then (true, visited, 1)
    else
      let r1 := dfsD R C s fuel (p.1 - 1, p.2) (insert p visited)
      if ¬ r1.1 then (false, r1.2.1, r1.2.2 + 1)
      else
        let r2 := dfsD R C s fuel (p.1 + 1, p.2) r1.2.1
        if ¬ r2.1 then (false, r2.2.1, max r1.2.2 r2.2.2 + 1)
        else
          let r3 := dfsD R C s fuel (p.1, p.2 - 1) r2.2.1
          if ¬ r3.1 then
            (false, r3.2.1, max (max r1.2.2 r2.2.2) r3.2.2 + 1)
          else
            let r4 := dfsD R C s fuel (p.1, p.2 + 1) r3.2.1
            (r4.1, r4.2.1,
             max (max (max r1.2.2 r2.2.2) r3.2.2) r4.2.2 + 1)

/-- Call-stack depth of the traversal the fill runs from `p` on an
otherwise untouched grid (fresh `visited`, the fill's own fuel). -/
def dfsDepth (R C : Int) (s : CellMap) (p : Coord) : Nat :=
  (dfsD R C s (fillFuel R C) p ∅).2.2

/-! ## Concrete example data used by witnesses and counterexamples -/

/-- The default paint: black, outline on (the component's initial
`selectedColor`/`showOutline`). -/
def blackPaint : CellAttrs := ⟨"#000000", true⟩

/-- A 3×3 ring: all eight perimeter cells of the 3×3 grid active, the
center `(1,1)` inactive. -/
def perimStore : CellMap := fun k =>
  if (0 ≤ k.1 ∧ k.1 < 3 ∧ 0 ≤ k.2 ∧ k.2 < 3) ∧ k ≠ (1, 1) then
    some ⟨"#FF0000", true⟩
  else none

/-- The 3×3 ring with one perimeter cell `(0,1)` deactivated. -/
def gapStore : CellMap := fun k =>
  if (0 ≤ k.1 ∧ k.1 < 3 ∧ 0 ≤ k.2 ∧ k.2 < 3) ∧ k ≠ (1, 1) ∧ k ≠ (0, 1) then
    some ⟨"#FF0000", true⟩
  else none

/-- A store holding a single red record at `(0, 0)`. -/
def redAtOrigin : CellMap := mapInsert emptyCells (0, 0) ⟨"#FF0000", true⟩

/-- A state whose current snapshot is `redAtOrigin`. -/
def redState : GridState := ⟨[⟨redAtOrigin, "seed"⟩], 0⟩

/-- A store holding a single record at the negative coordinate `(-1, 0)`. -/
def negStore : CellMap := mapInsert emptyCells (-1, 0) blackPaint

/-- Snapshot stores A, B, C, D for the history branch-pruning scenario. -/
def snapA : CellMap := mapInsert emptyCells (0, 0) ⟨"#FF0000", true⟩

/-- Snapshot store B (see `snapA`). -/
def snapB : CellMap := mapInsert emptyCells (0, 1) ⟨"#00FF00", true⟩

/-- Snapshot store C (see `snapA`). -/
def snapC : CellMap := mapInsert emptyCells (1, 0) ⟨"#0000FF", true⟩

/-- Snapshot store D (see `snapA`). -/
def snapD : CellMap := mapInsert emptyCells (1, 1) ⟨"#FFFF00", true⟩

/-- The state after `commit A; commit B; commit C` from the initial
state. -/
def scenarioABC : GridState :=
  updateHistory snapC "C"
    (updateHistory snapB "B" (updateHistory snapA "A" initialState))

/-- The branch-pruning scenario: from `scenarioABC`, `undo()` twice
(pointer back at A), then `commit D`. -/
def scenarioAfterD : GridState :=
  updateHistory snapD "D" (undo (undo scenarioABC))

/-- Postcondition pack for one `dfs` call `dfsF fuel p v = out` (proved in
`dfsF_spec`): the visited set only grows and only by good (valid, inactive)
cells, every newly visited cell is connected to `p` through inactive cells,
a `true` result means every newly visited cell's neighbours are in-grid and
active-or-visited (and `p` itself is valid and active-or-visited), and a
`false` result means `p` is out of grid or its region escapes to the
boundary. -/
structure DfsOut (R C : Int) (s : CellMap) (p : Coord) (v : Finset Coord)
    (out : Bool × Finset Coord) : Prop where
  grow : v ⊆ out.2
  dom : out.2 ⊆ v ∪ goodFinset R C s
  reach : ∀ q ∈ out.2, q ∉ v → Good R C s p ∧ Reach R C s p q
  closure : out.1 = true → ∀ q ∈ out.2, q ∉ v →
    ∀ d ∈ nbrs q, ValidP R C d ∧ (¬ FreeP s d ∨ d ∈ out.2)
  head : out.1 = true → ValidP R C p ∧ (¬ FreeP s p ∨ p ∈ out.2)
  escape : out.1 = false →
    ¬ ValidP R C p ∨ (Good R C s p ∧ EscapesP R C s p)

/-- Accumulator invariant (weak part) threaded through the four sibling
`dfs` calls of one expansion of `p`: `w` is the visited set after some of
the siblings ran. -/
def AccW (R C : Int) (s : CellMap) (p : Coord) (v w : Finset Coord) :
    Prop :=
  insert p v ⊆ w ∧ w ⊆ v ∪ goodFinset R C s
  ∧ ∀ q ∈ w, q ∉ v → Reach R C s p q

/-- Accumulator invariant (closure part): every cell newly visited by the
completed siblings (other than `p` itself) has all its neighbours in-grid
and active-or-visited. -/
def AccC (R C : Int) (s : CellMap) (p : Coord) (v w : Finset Coord) :
    Prop :=
  ∀ q ∈ w, q ∉ v → q ≠ p →
    ∀ d ∈ nbrs q, ValidP R C d ∧ (¬ FreeP s d ∨ d ∈ w)

/-- The outer loop's effect on cell `k` of one start cell `p`: `p` was
inactive in the original store, its `dfs` returned `true`, and `k` is in
the visited set it produced. -/
def Covers (R C : Int) (s : CellMap) (p k : Coord) : Prop :=
  isColored s p = false
  ∧ (dfsF R C s (fillFuel R C) p ∅).1 = true
  ∧ k ∈ (dfsF R C s (fillFuel R C) p ∅).2

/-! ## History plumbing lemmas -/

theorem index_updateHistory (m : CellMap) (a : String) (st : GridState) :
    (updateHistory m a st).historyIndex = st.historyIndex + 1 := rfl

theorem length_updateHistory (m : CellMap) (a : String) (st : GridState) :
    (updateHistory m a st).history.length
      = min (st.historyIndex + 1) st.history.length + 1 := by
  simp [updateHistory]

theorem length_updateHistory_of_inv (m : CellMap) (a : String)
    (st : GridState) (h : st.historyIndex < st.history.length) :
    (updateHistory m a st).history.length = st.historyIndex + 2 := by
  rw [length_updateHistory]
  omega

theorem updateHistory_hist_inv (m : CellMap) (a : String) (st : GridState)
    (h : HistInv st) : HistInv (updateHistory m a st) := by
  obtain ⟨h1, h2⟩ := h
  constructor
  · rw [index_updateHistory, length_updateHistory_of_inv m a st h1]
    omega
  · rw [length_updateHistory_of_inv m a st h1]
    omega

theorem getD_updateHistory_lt (m : CellMap) (a : String) (st : GridState)
    (j : Nat) (d : HistoryEntry) (hj : j ≤ st.historyIndex)
    (hlen : j < st.history.length) :
    (updateHistory m a st).history.getD j d = st.history.getD j d := by
  have hj2 : j < (st.history.take (st.historyIndex + 1)).length := by
    simp only [List.length_take]
    omega
  show ((st.history.take (st.historyIndex + 1)) ++ _).getD j d = _
  rw [List.getD_append _ _ _ _ hj2, List.getD_eq_getElem _ _ hj2,
    List.getElem_take, List.getD_eq_getElem _ _ hlen]

theorem getD_updateHistory_new (m : CellMap) (a : String) (st : GridState)
    (d : HistoryEntry) (h : st.historyIndex < st.history.length) :
    (updateHistory m a st).history.getD (st.historyIndex + 1) d
      = ⟨m, a⟩ := by
  have hlen : (st.history.take (st.historyIndex + 1)).length
      = st.historyIndex + 1 := by
    simp only [List.length_take]
    omega
  show ((st.history.take (st.historyIndex + 1)) ++ [(⟨m, a⟩ : HistoryEntry)]).getD _ d = _
  rw [List.getD_append_right _ _ _ _ hlen.le, hlen]
  simp

theorem cellStates_updateHistory (m : CellMap) (a : String) (st : GridState)
    (h : st.historyIndex < st.history.length) :
    cellStates (updateHistory m a st) = m := by
  unfold cellStates
  rw [index_updateHistory, getD_updateHistory_new m a st _ h]

instance (st : GridState) : Decidable (HistInv st) := by
  unfold HistInv; infer_instance

theorem cellStates_undo_updateHistory (m : CellMap) (a : String)
    (st : GridState) (h : st.historyIndex < st.history.length) :
    cellStates (undo (updateHistory m a st)) = cellStates st := by
  have h0 : undo (updateHistory m a st)
      = ⟨(updateHistory m a st).history, st.historyIndex⟩ := by
    simp [undo, updateHistory]
  rw [h0]
  unfold cellStates
  simp only
  rw [getD_updateHistory_lt m a st st.historyIndex initialEntry le_rfl h]

theorem cellStates_undo_undo_updateHistory (m : CellMap) (a : String)
    (st : GridState) (h : st.historyIndex < st.history.length) :
    cellStates (undo (undo (updateHistory m a st)))
      = cellStates (undo st) := by
  have h1 : undo (updateHistory m a st)
      = ⟨(updateHistory m a st).history, st.historyIndex⟩ := by
    simp [undo, updateHistory]
  rw [h1]
  by_cases hi : 0 < st.historyIndex
  · have h2 : undo (⟨(updateHistory m a st).history, st.historyIndex⟩ : GridState)
        = ⟨(updateHistory m a st).history, st.historyIndex - 1⟩ := by
      simp [undo, hi]
    have h3 : undo st = ⟨st.history, st.historyIndex - 1⟩ := by
      simp [undo, hi]
    rw [h2, h3]
    unfold cellStates
    simp only
    rw [getD_updateHistory_lt m a st (st.historyIndex - 1) initialEntry
      (by omega) (by omega)]
  · have hz : st.historyIndex = 0 := by omega
    have h2 : undo (⟨(updateHistory m a st).history, st.historyIndex⟩ : GridState)
        = ⟨(updateHistory m a st).history, st.historyIndex⟩ := by
      simp [undo, hz]
    have h3 : undo st = st := by
      simp [undo, hz]
    rw [h2, h3]
    unfold cellStates
    simp only
    rw [getD_updateHistory_lt m a st st.historyIndex initialEntry le_rfl h]

/-- **C2 counterexample.**  The claim says the clear-all operation commits
*two* consecutive snapshots in one logical action, so clearing from the
1-entry initial history would leave 3 entries.  The source's
`clearAllCells` is a single `updateHistory(new Map(), "Cleared all cells")`
call: the history has 2 entries afterwards, not 3, and no "pre-clear"
duplicate of the previous top is pushed. -/
theorem clearAllCells_single_commit_cx :
    (clearAllCells initialState).history.length = 2
  ∧ (clearAllCells initialState).history.length ≠ 3 := by
  constructor
  · rfl
  · decide

/-- **C2 (amended).**  `clearAllCells` commits a *single* empty snapshot
(label `"Cleared all cells"`); because commit truncates at the pointer and
appends, a single `undo()` from the cleared state already lands on the
pre-clear store (the snapshot that was current before clearing), and one
further `undo()` continues to the state before that. -/
theorem clearAllCells_spec (st : GridState) (h : HistInv st) :
    (clearAllCells st).history.length = st.historyIndex + 2
  ∧ cellStates (clearAllCells st) = emptyCells
  ∧ cellStates (undo (clearAllCells st)) = cellStates st
  ∧ cellStates (undo (undo (clearAllCells st))) = cellStates (undo st) := by
  refine ⟨length_updateHistory_of_inv _ _ st h.1,
    cellStates_updateHistory _ _ st h.1,
    cellStates_undo_updateHistory _ _ st h.1,
    cellStates_undo_undo_updateHistory _ _ st h.1⟩

/-- Witness for `clearAllCells_spec` at the concrete state
`scenarioABC`. -/
theorem clearAllCells_spec_witness :
    HistInv scenarioABC
  ∧ ((clearAllCells scenarioABC).history.length = scenarioABC.historyIndex + 2
  ∧ cellStates (clearAllCells scenarioABC) = emptyCells
  ∧ cellStates (undo (clearAllCells scenarioABC)) = cellStates scenarioABC
  ∧ cellStates (undo (undo (clearAllCells scenarioABC)))
      = cellStates (undo scenarioABC)) :=
  ⟨by decide, clearAllCells_spec scenarioABC (by decide)⟩

/-- **C3 (confirmed).**  `commit` (the source's `updateHistory`) truncates
the snapshot list to `[0..pointer]`, appends the new snapshot, and advances
the pointer to the new last index; consequently, in the scenario
`commit A; commit B; commit C; undo(); undo(); commit D`, the snapshots B
and C are discarded (the history is `[initial, A, D]`) and `redo()` is a
no-op. -/
theorem updateHistory_truncate_append_spec :
    (∀ (m : CellMap) (a : String) (st : GridState),
      updateHistory m a st
        = ⟨st.history.take (st.historyIndex + 1) ++ [⟨m, a⟩],
           st.historyIndex + 1⟩)
  ∧ scenarioAfterD.history = [initialEntry, ⟨snapA, "A"⟩, ⟨snapD, "D"⟩]
  ∧ scenarioAfterD.historyIndex = 2
  ∧ scenarioAfterD.history.length = 3
  ∧ redo scenarioAfterD = scenarioAfterD :=
  ⟨fun _ _ _ => rfl, rfl, rfl, rfl, rfl⟩

/-- **C6 (confirmed).**  The invariant `pointer < length ∧ 1 ≤ length`
holds of the initial state (one empty snapshot, pointer 0) and is preserved
by commit (`updateHistory`), `undo`, `redo` and `jumpTo`
(`restoreHistory`). -/
theorem history_invariant_spec :
    HistInv initialState
  ∧ (∀ (m : CellMap) (a : String) (st : GridState),
      HistInv st → HistInv (updateHistory m a st))
  ∧ (∀ st : GridState, HistInv st → HistInv (undo st))
  ∧ (∀ st : GridState, HistInv st → HistInv (redo st))
  ∧ (∀ (idx : Int) (st : GridState),
      HistInv st → HistInv (restoreHistory idx st)) := by
  refine ⟨by decide, updateHistory_hist_inv, ?_, ?_, ?_⟩
  · intro st h
    obtain ⟨h1, h2⟩ := h
    unfold undo
    split
    · constructor
      · show st.historyIndex - 1 < st.history.length
        omega
      · exact h2
    · exact ⟨h1, h2⟩
  · intro st h
    obtain ⟨h1, h2⟩ := h
    unfold redo
    split
    · rename_i hc
      constructor
      · show st.historyIndex + 1 < st.history.length
        omega
      · exact h2
    · exact ⟨h1, h2⟩
  · intro idx st h
    obtain ⟨h1, h2⟩ := h
    unfold restoreHistory
    split
    · rename_i hc
      constructor
      · show idx.toNat < st.history.length
        omega
      · exact h2
    · exact ⟨h1, h2⟩

/-- Witness for `history_invariant_spec`: the preservation clauses applied
at the concrete state `scenarioABC`. -/
theorem history_invariant_spec_witness :
    HistInv scenarioABC
  ∧ HistInv (undo scenarioABC)
  ∧ HistInv (redo scenarioABC)
  ∧ HistInv (restoreHistory 1 scenarioABC)
  ∧ HistInv (updateHistory emptyCells "x" scenarioABC) :=
  ⟨by decide,
   history_invariant_spec.2.2.1 scenarioABC (by decide),
   history_invariant_spec.2.2.2.1 scenarioABC (by decide),
   history_invariant_spec.2.2.2.2 1 scenarioABC (by decide),
   history_invariant_spec.2.1 emptyCells "x" scenarioABC (by decide)⟩

/-- **C7 (confirmed).**  With the pointer at the last index (the situation
after any sequence of commits), `undo()` followed by `redo()` restores the
exact pre-undo state — in particular the active-cell mapping of the
current snapshot is structurally identical. -/
theorem undo_redo_roundtrip_spec (st : GridState) (h : HistInv st)
    (hend : st.historyIndex = st.history.length - 1) :
    redo (undo st) = st := by
  obtain ⟨h1, h2⟩ := h
  cases st with
  | mk hist idx =>
    simp only at h1 h2 hend
    by_cases hi : 0 < idx
    · have hu : undo ⟨hist, idx⟩ = ⟨hist, idx - 1⟩ := by
        simp [undo, hi]
      rw [hu]
      unfold redo
      rw [if_pos (by simp only; omega)]
      have he : idx - 1 + 1 = idx := by omega
      simp only [he]
    · have hz : idx = 0 := by omega
      have hu : undo ⟨hist, idx⟩ = ⟨hist, idx⟩ := by
        simp [undo, hz]
      rw [hu]
      unfold redo
      rw [if_neg (by simp only; omega)]

/-- Witness for `undo_redo_roundtrip_spec` at `scenarioABC` (pointer 3,
length 4). -/
theorem undo_redo_roundtrip_spec_witness :
    (HistInv scenarioABC
      ∧ scenarioABC.historyIndex = scenarioABC.history.length - 1)
  ∧ redo (undo scenarioABC) = scenarioABC :=
  ⟨⟨by decide, by decide⟩,
   undo_redo_roundtrip_spec scenarioABC (by decide) (by decide)⟩

/-! ## Toggle and clamp claims -/

theorem handleCellToggle_eq (sc : String) (so : Bool) (row col : Int)
    (st : GridState) :
    handleCellToggle sc so row col st
      = if cellStates st (row, col) = some ⟨sc, so⟩ then
          updateHistory (mapErase (cellStates st) (row, col))
            (s!"Cleared cell ({row}, {col})") st
        else
          updateHistory (mapInsert (cellStates st) (row, col) ⟨sc, so⟩)
            (s!"Colored cell ({row}, {col}) with {sc}") st := rfl

theorem cellStates_handleCellToggle (sc : String) (so : Bool)
    (row col : Int) (st : GridState)
    (h : st.historyIndex < st.history.length) :
    cellStates (handleCellToggle sc so row col st)
      = if cellStates st (row, col) = some ⟨sc, so⟩ then
          mapErase (cellStates st) (row, col)
        else mapInsert (cellStates st) (row, col) ⟨sc, so⟩ := by
  rw [handleCellToggle_eq]
  by_cases hc : cellStates st (row, col) = some ⟨sc, so⟩
  · rw [if_pos hc, if_pos hc, cellStates_updateHistory _ _ st h]
  · rw [if_neg hc, if_neg hc, cellStates_updateHistory _ _ st h]

theorem handleCellToggle_hist_inv (sc : String) (so : Bool)
    (row col : Int) (st : GridState) (h : HistInv st) :
    HistInv (handleCellToggle sc so row col st) := by
  rw [handleCellToggle_eq]
  by_cases hc : cellStates st (row, col) = some ⟨sc, so⟩
  · rw [if_pos hc]; exact updateHistory_hist_inv _ _ st h
  · rw [if_neg hc]; exact updateHistory_hist_inv _ _ st h

theorem handleCellToggle_index (sc : String) (so : Bool) (row col : Int)
    (st : GridState) :
    (handleCellToggle sc so row col st).historyIndex
      = st.historyIndex + 1 := by
  rw [handleCellToggle_eq]
  by_cases hc : cellStates st (row, col) = some ⟨sc, so⟩
  · rw [if_pos hc]; rfl
  · rw [if_neg hc]; rfl

theorem handleCellToggle_length (sc : String) (so : Bool) (row col : Int)
    (st : GridState) (h : st.historyIndex < st.history.length) :
    (handleCellToggle sc so row col st).history.length
      = st.historyIndex + 2 := by
  rw [handleCellToggle_eq]
  by_cases hc : cellStates st (row, col) = some ⟨sc, so⟩
  · rw [if_pos hc]; exact length_updateHistory_of_inv _ _ st h
  · rw [if_neg hc]; exact length_updateHistory_of_inv _ _ st h

/-- **C4 counterexample.**  The claim says an out-of-range coordinate
passed to `toggleCell` is a no-op (store unchanged, no history entry).
In the source, `handleCellToggle` never consults the grid bounds: toggling
`(15, 15)` on the default 10×10 grid from the initial state inserts a
record at `(15, 15)` and commits a new history entry. -/
theorem handleCellToggle_out_of_range_cx :
    ¬ ValidP 10 10 (15, 15)
  ∧ cellStates (handleCellToggle "#000000" true 15 15 initialState) (15, 15)
      = some ⟨"#000000", true⟩
  ∧ cellStates initialState (15, 15) = none
  ∧ (handleCellToggle "#000000" true 15 15 initialState).history.length = 2
  ∧ initialState.history.length = 1 := by
  refine ⟨by decide, by decide, rfl, rfl, rfl⟩

/-- **C4 (amended).**  `toggleCell` never throws (it is a total function),
but it performs no bounds check at all: *any* coordinate, out of range or
not, is toggled like any other — the record at it is inserted or removed
and a new history entry is always committed.  Keeping coordinates in
range is the caller's responsibility. -/
theorem handleCellToggle_total_spec (sc : String) (so : Bool)
    (row col : Int) (st : GridState) (h : HistInv st) :
    (handleCellToggle sc so row col st).historyIndex = st.historyIndex + 1
  ∧ (handleCellToggle sc so row col st).history.length
      = st.historyIndex + 2
  ∧ cellStates (handleCellToggle sc so row col st) (row, col)
      = (if cellStates st (row, col) = some ⟨sc, so⟩ then none
         else some ⟨sc, so⟩)
  ∧ ∀ j, j ≠ (row, col) →
      cellStates (handleCellToggle sc so row col st) j
        = cellStates st j := by
  refine ⟨handleCellToggle_index sc so row col st,
    handleCellToggle_length sc so row col st h.1, ?_, ?_⟩
  · rw [cellStates_handleCellToggle sc so row col st h.1]
    by_cases hc : cellStates st (row, col) = some ⟨sc, so⟩
    · rw [if_pos hc, if_pos hc]
      simp [mapErase]
    · rw [if_neg hc, if_neg hc]
      simp [mapInsert]
  · intro j hj
    rw [cellStates_handleCellToggle sc so row col st h.1]
    by_cases hc : cellStates st (row, col) = some ⟨sc, so⟩
    · rw [if_pos hc]
      simp [mapErase, hj]
    · rw [if_neg hc]
      simp [mapInsert, hj]

/-- Witness for `handleCellToggle_total_spec` at the out-of-range
coordinate `(15, 15)` of the initial state. -/
theorem handleCellToggle_total_spec_witness :
    HistInv initialState
  ∧ ((handleCellToggle "#000000" true 15 15 initialState).historyIndex
        = initialState.historyIndex + 1
  ∧ (handleCellToggle "#000000" true 15 15 initialState).history.length
        = initialState.historyIndex + 2
  ∧ cellStates (handleCellToggle "#000000" true 15 15 initialState) (15, 15)
      = (if cellStates initialState (15, 15) = some ⟨"#000000", true⟩ then
           none
         else some ⟨"#000000", true⟩)
  ∧ ∀ j, j ≠ ((15 : Int), (15 : Int)) →
      cellStates (handleCellToggle "#000000" true 15 15 initialState) j
        = cellStates initialState j) :=
  ⟨by decide, handleCellToggle_total_spec "#000000" true 15 15 initialState
    (by decide)⟩

/-- **C5 counterexample.**  The claim says `clamp` keeps exactly the
records with `0 ≤ row < rowCount` and `0 ≤ col < colCount`, so a record at
the negative coordinate `(-1, 0)` must be absent from the result.  The
source checks only `row < rowCount && col < colCount`, so the record at
`(-1, 0)` survives clamping to a 3×3 grid. -/
theorem clampCells_negative_kept_cx :
    clampCells negStore 3 3 (-1, 0) = some blackPaint
  ∧ ((-1 : Int) < 0) := by
  refine ⟨by decide, by decide⟩

/-- **C5 (amended).**  `clamp(store, rowCount, colCount)` keeps exactly the
records whose coordinate satisfies `row < rowCount` and `col < colCount`
(each kept record unchanged); records failing an *upper* bound on either
axis are absent.  No lower-bound check is performed, so records at
negative coordinates are retained (the UI never produces them).  Clamping
is idempotent. -/
theorem clampCells_spec (s : CellMap) (R C : Int) :
    (∀ k : Coord, k.1 < R ∧ k.2 < C → clampCells s R C k = s k)
  ∧ (∀ k : Coord, ¬ (k.1 < R ∧ k.2 < C) → clampCells s R C k = none)
  ∧ (∀ k : Coord, clampCells (clampCells s R C) R C k
      = clampCells s R C k) := by
  refine ⟨?_, ?_, ?_⟩
  · intro k hk
    simp [clampCells, hk]
  · intro k hk
    simp [clampCells, hk]
  · intro k
    unfold clampCells
    by_cases hk : k.1 < R ∧ k.2 < C
    · simp only [if_pos hk]
    · simp only [if_neg hk]

/-- Witness for `clampCells_spec` on the concrete store `negStore`. -/
theorem clampCells_spec_witness :
    (((2 : Int) < 3 ∧ (2 : Int) < 3)
      ∧ clampCells negStore 3 3 (2, 2) = negStore (2, 2))
  ∧ (¬ (((5 : Int), (0 : Int)).1 < 3 ∧ ((5 : Int), (0 : Int)).2 < 3)
      ∧ clampCells negStore 3 3 (5, 0) = none)
  ∧ clampCells (clampCells negStore 3 3) 3 3 (-1, 0)
      = clampCells negStore 3 3 (-1, 0) :=
  ⟨⟨by decide, (clampCells_spec negStore 3 3).1 (2, 2) (by decide)⟩,
   ⟨by decide, (clampCells_spec negStore 3 3).2.1 (5, 0) (by decide)⟩,
   (clampCells_spec negStore 3 3).2.2 (-1, 0)⟩

/-- **C8 counterexample.**  The claim says toggling twice with the same
attributes always restores the original mapping.  If the cell already
holds *different* attributes (red at `(0,0)`), toggling twice with black
first overwrites red with black, then — the stored attributes now equal
the selected ones — removes the record: the cell ends up empty, not
red. -/
theorem toggle_twice_overwrite_cx :
    cellStates redState (0, 0) = some ⟨"#FF0000", true⟩
  ∧ cellStates
      (handleCellToggle "#000000" true 0 0
        (handleCellToggle "#000000" true 0 0 redState)) (0, 0) = none := by
  refine ⟨by decide, by decide⟩

/-- **C8 (amended).**  Toggling `(row, col)` twice with the same selected
attributes restores the store's original mapping exactly — *provided* the
cell was initially absent or stored exactly those attributes.  When the
cell stored different attributes, the double toggle instead leaves the
cell absent (first call overwrites, second call removes). -/
theorem toggle_twice_spec (sc : String) (so : Bool) (row col : Int)
    (st : GridState) (h : HistInv st) :
    ((cellStates st (row, col) = none
        ∨ cellStates st (row, col) = some ⟨sc, so⟩) →
      ∀ j, cellStates
          (handleCellToggle sc so row col
            (handleCellToggle sc so row col st)) j
        = cellStates st j)
  ∧ (∀ b : CellAttrs, cellStates st (row, col) = some b → b ≠ ⟨sc, so⟩ →
      cellStates
          (handleCellToggle sc so row col
            (handleCellToggle sc so row col st)) (row, col) = none) := by
  have h1 := cellStates_handleCellToggle sc so row col st h.1
  have hInv1 := handleCellToggle_hist_inv sc so row col st h
  have h2 := cellStates_handleCellToggle sc so row col
    (handleCellToggle sc so row col st) hInv1.1
  constructor
  · rintro (hc | hc) j
    · rw [if_neg (by rw [hc]; exact fun hx => Option.noConfusion hx)] at h1
      have hx1 : cellStates (handleCellToggle sc so row col st) (row, col)
          = some ⟨sc, so⟩ := by
        rw [h1]; simp [mapInsert]
      rw [if_pos hx1] at h2
      rw [h2]
      by_cases hj : j = (row, col)
      · subst hj
        rw [hc]
        simp [mapErase, h1]
      · simp [mapErase, hj, h1, mapInsert]
    · rw [if_pos hc] at h1
      have hx1 : cellStates (handleCellToggle sc so row col st) (row, col)
          = none := by
        rw [h1]; simp [mapErase]
      rw [if_neg (by rw [hx1]; exact fun hx => Option.noConfusion hx)] at h2
      rw [h2]
      by_cases hj : j = (row, col)
      · subst hj
        rw [hc]
        simp [mapInsert]
      · simp [mapInsert, hj, h1, mapErase]
  · intro b hb hne
    rw [if_neg (by rw [hb]; simp; exact fun hx => hne (by cases b; cases hx; rfl))] at h1
    have hx1 : cellStates (handleCellToggle sc so row col st) (row, col)
        = some ⟨sc, so⟩ := by
      rw [h1]; simp [mapInsert]
    rw [if_pos hx1] at h2
    rw [h2]
    simp [mapErase]

/-- Witness for `toggle_twice_spec`: double toggle at `(0, 0)` from the
initial (empty) state restores the empty mapping, evaluated at `(0, 0)`
via the theorem. -/
theorem toggle_twice_spec_witness :
    HistInv initialState
  ∧ (cellStates initialState (0, 0) = none
      ∨ cellStates initialState (0, 0) = some ⟨"#000000", true⟩)
  ∧ ∀ j, cellStates
        (handleCellToggle "#000000" true 0 0
          (handleCellToggle "#000000" true 0 0 initialState)) j
      = cellStates initialState j :=
  ⟨by decide, Or.inl (by decide),
   (toggle_twice_spec "#000000" true 0 0 initialState (by decide)).1
     (Or.inl (by decide))⟩

/-- **C10 (confirmed).**  `clearOutOfBoundsCells`, `clearAllCells` and
`fillEnclosedAreas` each end in an unconditional `updateHistory` call:
whatever the computed store is — even when it is structurally identical to
the current snapshot — a new history entry is appended and the pointer
advances by one.  There is no change detection anywhere. -/
theorem ops_always_commit_spec (R C : Int) (sc : String) (so : Bool)
    (st : GridState) (h : HistInv st) :
    ((clearOutOfBoundsCells R C st).historyIndex = st.historyIndex + 1
      ∧ (clearOutOfBoundsCells R C st).history.length = st.historyIndex + 2
      ∧ (clearOutOfBoundsCells R C st).history.getD (st.historyIndex + 1)
          initialEntry
        = ⟨clampCells (cellStates st) R C, "Cleared out-of-bounds cells"⟩)
  ∧ ((clearAllCells st).historyIndex = st.historyIndex + 1
      ∧ (clearAllCells st).history.length = st.historyIndex + 2
      ∧ (clearAllCells st).history.getD (st.historyIndex + 1) initialEntry
        = ⟨emptyCells, "Cleared all cells"⟩)
  ∧ ((fillEnclosedAreas sc so R C st).historyIndex = st.historyIndex + 1
      ∧ (fillEnclosedAreas sc so R C st).history.length
          = st.historyIndex + 2
      ∧ (fillEnclosedAreas sc so R C st).history.getD (st.historyIndex + 1)
          initialEntry
        = ⟨fillCells R C (cellStates st) ⟨sc, so⟩,
           "Filled enclosed areas"⟩) := by
  refine ⟨⟨rfl, length_updateHistory_of_inv _ _ st h.1,
      getD_updateHistory_new _ _ st initialEntry h.1⟩,
    ⟨rfl, length_updateHistory_of_inv _ _ st h.1,
      getD_updateHistory_new _ _ st initialEntry h.1⟩,
    ⟨rfl, length_updateHistory_of_inv _ _ st h.1,
      getD_updateHistory_new _ _ st initialEntry h.1⟩⟩

/-- Witness for `ops_always_commit_spec` on a no-change instance: clamping
the initial (empty) state to a 3×3 grid computes a store equal to the
current one, yet a new entry is still committed. -/
theorem ops_always_commit_spec_witness :
    HistInv initialState
  ∧ (clearOutOfBoundsCells 3 3 initialState).historyIndex
      = initialState.historyIndex + 1
  ∧ (clearAllCells initialState).history.length
      = initialState.historyIndex + 2
  ∧ (fillEnclosedAreas "#000000" true 3 3 initialState).historyIndex
      = initialState.historyIndex + 1 :=
  ⟨by decide,
   (ops_always_commit_spec 3 3 "#000000" true initialState (by decide)).1.1,
   (ops_always_commit_spec 3 3 "#000000" true initialState (by decide)).2.1.2.1,
   (ops_always_commit_spec 3 3 "#000000" true initialState (by decide)).2.2.1⟩

/-! ## Call-stack depth of the recursive dfs (claim C9) -/

theorem dfsD_invalid (R C : Int) (s : CellMap) (fuel : Nat) (p : Coord)
    (v : Finset Coord) (h : ¬ ValidP R C p) :
    dfsD R C s (fuel + 1) p v = (false, v, 1) := by
  simp only [dfsD]
  rw [if_pos h]

theorem dfsD_step_up_false (R C : Int) (s : CellMap) (fuel : Nat)
    (p : Coord) (v : Finset Coord) (h1 : ValidP R C p)
    (h2 : isColored s p = false) (h3 : p ∉ v)
    (h4 : (dfsD R C s fuel (p.1 - 1, p.2) (insert p v)).1 = false) :
    dfsD R C s (fuel + 1) p v
      = (false, (dfsD R C s fuel (p.1 - 1, p.2) (insert p v)).2.1,
         (dfsD R C s fuel (p.1 - 1, p.2) (insert p v)).2.2 + 1) := by
  simp only [dfsD]
  rw [if_neg (not_not_intro h1)]
  rw [if_neg (by rw [h2]; exact Bool.false_ne_true)]
  rw [if_neg h3]
  rw [if_pos (by rw [h4]; exact Bool.false_ne_true)]

theorem dfsD_column_depth (n : Nat) :
    ∀ (k : Nat) (v : Finset Coord) (fuel : Nat), k < n →
      (∀ j : Nat, j ≤ k → (((j : Nat) : Int), (0 : Int)) ∉ v) →
      k + 2 ≤ fuel →
      (dfsD (n : Int) 1 emptyCells fuel (((k : Nat) : Int), 0) v).1 = false
    ∧ (dfsD (n : Int) 1 emptyCells fuel (((k : Nat) : Int), 0) v).2.2
        = k + 2 := by
  intro k
  induction k with
  | zero =>
    intro v fuel hk hv hfuel
    obtain ⟨f, rfl⟩ : ∃ f, fuel = f + 2 := ⟨fuel - 2, by omega⟩
    have h1 : ValidP (n : Int) 1 (((0 : Nat) : Int), 0) := by
      simp only [ValidP]
      omega
    have h3 : (((0 : Nat) : Int), (0 : Int)) ∉ v := hv 0 le_rfl
    have h4 :
        (dfsD (n : Int) 1 emptyCells (f + 1)
          (((((0 : Nat) : Int), (0 : Int)).1 - 1),
           ((((0 : Nat) : Int), (0 : Int)).2))
          (insert (((0 : Nat) : Int), (0 : Int)) v)).1 = false := by
      rw [dfsD_invalid (n : Int) 1 emptyCells f _ _
        (by simp only [ValidP]; omega)]
    rw [dfsD_step_up_false (n : Int) 1 emptyCells (f + 1)
      (((0 : Nat) : Int), (0 : Int)) v h1 rfl h3 h4]
    rw [dfsD_invalid (n : Int) 1 emptyCells f _ _
      (by simp only [ValidP]; omega)]
    refine ⟨rfl, ?_⟩
    simp
  | succ k ih =>
    intro v fuel hk hv hfuel
    obtain ⟨f, rfl⟩ : ∃ f, fuel = f + 1 := ⟨fuel - 1, by omega⟩
    have h1 : ValidP (n : Int) 1 (((k + 1 : Nat) : Int), 0) := by
      simp only [ValidP]
      omega
    have h3 : (((k + 1 : Nat) : Int), (0 : Int)) ∉ v := hv (k + 1) le_rfl
    have hpair :
        (((((k + 1 : Nat) : Int), (0 : Int)).1 - 1),
         ((((k + 1 : Nat) : Int), (0 : Int)).2))
        = (((k : Nat) : Int), (0 : Int)) := by
      simp only [Prod.mk.injEq]
      constructor
      · push_cast
        ring
      · trivial
    have hins : ∀ j : Nat, j ≤ k →
        (((j : Nat) : Int), (0 : Int))
          ∉ insert (((k + 1 : Nat) : Int), (0 : Int)) v := by
      intro j hj
      rw [Finset.mem_insert]
      rintro (hx | hx)
      · have hji : (j : Int) = ((k + 1 : Nat) : Int) := congrArg Prod.fst hx
        omega
      · exact hv j (by omega) hx
    obtain ⟨ih1, ih2⟩ := ih (insert (((k + 1 : Nat) : Int), (0 : Int)) v) f
      (by omega) hins (by omega)
    have h4 :
        (dfsD (n : Int) 1 emptyCells f
          (((((k + 1 : Nat) : Int), (0 : Int)).1 - 1),
           ((((k + 1 : Nat) : Int), (0 : Int)).2))
          (insert (((k + 1 : Nat) : Int), (0 : Int)) v)).1 = false := by
      rw [hpair]
      exact ih1
    rw [dfsD_step_up_false (n : Int) 1 emptyCells f
      (((k + 1 : Nat) : Int), (0 : Int)) v h1 rfl h3 h4]
    refine ⟨rfl, ?_⟩
    show (dfsD (n : Int) 1 emptyCells f
      (((((k + 1 : Nat) : Int), (0 : Int)).1 - 1),
       ((((k + 1 : Nat) : Int), (0 : Int)).2))
      (insert (((k + 1 : Nat) : Int), (0 : Int)) v)).2.2 + 1 = k + 1 + 2
    rw [hpair, ih2]

/-- **C9 counterexample.**  The claim says the traversal's call-stack
depth does not grow with the size of the region being explored.  The
source's `dfs` is directly recursive, and on an all-inactive `n`×1 grid
the traversal started at `(k, 0)` nests `k + 2` recursive calls, so no
bound `B` can dominate the depth over all grids: the claim's bounded-depth
consequence is false. -/
theorem dfs_depth_unbounded_cx :
    ¬ ∃ B : Nat, ∀ n k : Nat, k < n →
        dfsDepth ((n : Nat) : Int) 1 emptyCells (((k : Nat) : Int), 0)
          ≤ B := by
  rintro ⟨B, hB⟩
  have hdepth := (dfsD_column_depth (B + 2) (B + 1) ∅
    (fillFuel ((B + 2 : Nat) : Int) 1) (by omega)
    (fun j hj => Finset.not_mem_empty _) ?hfuel).2
  case hfuel =>
    show B + 1 + 2 ≤ (((B + 2 : Nat) : Int)).toNat * (1 : Int).toNat + 1
    simp only [Int.toNat_natCast, Int.toNat_one]
    omega
  have hle := hB (B + 2) (B + 1) (by omega)
  unfold dfsDepth at hle
  rw [hdepth] at hle
  omega

/-- **C9 (amended).**  The flood-fill traversal is the source's directly
recursive `dfs`, not an explicit work-list: its call-stack depth grows
linearly with the extent of the region explored.  Concretely, on an
all-inactive `n`×1 grid the traversal started at `(k, 0)` (with the
fill's own fuel) reaches nesting depth exactly `k + 2` for every
`k < n`. -/
theorem dfs_depth_linear_spec (n k : Nat) (h : k < n) :
    dfsDepth ((n : Nat) : Int) 1 emptyCells (((k : Nat) : Int), 0)
      = k + 2 := by
  unfold dfsDepth
  refine (dfsD_column_depth n k ∅ (fillFuel ((n : Nat) : Int) 1) h
    (fun j hj => Finset.not_mem_empty _) ?_).2
  show k + 2 ≤ (((n : Nat) : Int)).toNat * (1 : Int).toNat + 1
  simp only [Int.toNat_natCast, Int.toNat_one]
  omega

/-- Witness for `dfs_depth_linear_spec`: depth 7 at `(5, 0)` on the 7×1
grid. -/
theorem dfs_depth_linear_spec_witness :
    (5 : Nat) < 7
  ∧ dfsDepth (((7 : Nat)) : Int) 1 emptyCells ((((5 : Nat)) : Int), 0)
      = 5 + 2 :=
  ⟨by omega, dfs_depth_linear_spec 7 5 (by omega)⟩

/-! ## Flood-fill correctness (claim C1): basic lemmas -/

theorem freeP_iff_not_colored (s : CellMap) (p : Coord) :
    FreeP s p ↔ isColored s p = false := by
  unfold FreeP isColored
  cases s p <;> simp

theorem mem_goodFinset (R C : Int) (s : CellMap) (p : Coord) :
    p ∈ goodFinset R C s ↔ Good R C s p := by
  unfold goodFinset Good ValidP FreeP
  rw [Finset.mem_filter, Finset.mem_product, Finset.mem_Ico, Finset.mem_Ico]
  tauto

theorem goodFinset_card_lt_fillFuel (R C : Int) (s : CellMap) :
    (goodFinset R C s).card < fillFuel R C := by
  have h1 : (goodFinset R C s).card
      ≤ ((Finset.Ico (0 : Int) R) ×ˢ (Finset.Ico (0 : Int) C)).card :=
    Finset.card_filter_le _ _
  rw [Finset.card_product, Int.card_Ico, Int.card_Ico] at h1
  unfold fillFuel
  have h2 : (R - 0).toNat = R.toNat := by omega
  have h3 : (C - 0).toNat = C.toNat := by omega
  rw [h2, h3] at h1
  omega

theorem adj_up (p : Coord) : Adj p (p.1 - 1, p.2) := by
  simp [Adj, nbrs]

theorem adj_down (p : Coord) : Adj p (p.1 + 1, p.2) := by
  simp [Adj, nbrs]

theorem adj_left (p : Coord) : Adj p (p.1, p.2 - 1) := by
  simp [Adj, nbrs]

theorem adj_right (p : Coord) : Adj p (p.1, p.2 + 1) := by
  simp [Adj, nbrs]

theorem reach_single (R C : Int) (s : CellMap) (p q : Coord)
    (hp : Good R C s p) (hq : Good R C s q) (hadj : Adj p q) :
    Reach R C s p q :=
  Relation.ReflTransGen.single ⟨hp, hq, hadj⟩

theorem escapes_of_reach (R C : Int) (s : CellMap) (p q : Coord)
    (hpq : Reach R C s p q) (hq : EscapesP R C s q) :
    EscapesP R C s p := by
  obtain ⟨r, hqr, d, hadj, hnv⟩ := hq
  exact ⟨r, Relation.ReflTransGen.trans hpq hqr, d, hadj, hnv⟩

theorem escape_exit (R C : Int) (s : CellMap) (p c : Coord)
    (hGp : Good R C s p) (hadj : Adj p c)
    (hc : ¬ ValidP R C c ∨ (Good R C s c ∧ EscapesP R C s c)) :
    EscapesP R C s p := by
  rcases hc with hnv | ⟨hGc, hesc⟩
  · exact ⟨p, Relation.ReflTransGen.refl, c, hadj, hnv⟩
  · exact escapes_of_reach R C s p c
      (reach_single R C s p c hGp hGc hadj) hesc

/-! ## dfs unfolding equations -/

theorem dfsF_invalid (R C : Int) (s : CellMap) (fuel : Nat) (p : Coord)
    (v : Finset Coord) (h : ¬ ValidP R C p) :
    dfsF R C s (fuel + 1) p v = (false, v) := by
  simp only [dfsF]
  rw [if_pos h]

theorem dfsF_colored (R C : Int) (s : CellMap) (fuel : Nat) (p : Coord)
    (v : Finset Coord) (h1 : ValidP R C p) (h2 : isColored s p = true) :
    dfsF R C s (fuel + 1) p v = (true, v) := by
  simp only [dfsF]
  rw [if_neg (not_not_intro h1), if_pos h2]

theorem dfsF_visited (R C : Int) (s : CellMap) (fuel : Nat) (p : Coord)
    (v : Finset Coord) (h1 : ValidP R C p) (h2 : isColored s p = false)
    (h3 : p ∈ v) :
    dfsF R C s (fuel + 1) p v = (true, v) := by
  simp only [dfsF]
  rw [if_neg (not_not_intro h1),
    if_neg (by rw [h2]; exact Bool.false_ne_true), if_pos h3]

theorem dfsF_main (R C : Int) (s : CellMap) (fuel : Nat) (p : Coord)
    (v : Finset Coord) (h1 : ValidP R C p) (h2 : isColored s p = false)
    (h3 : p ∉ v) :
    dfsF R C s (fuel + 1) p v
      = (let r1 := dfsF R C s fuel (p.1 - 1, p.2) (insert p v)
         if ¬ r1.1 then (false, r1.2)
         else
           let r2 := dfsF R C s fuel (p.1 + 1, p.2) r1.2
           if ¬ r2.1 then (false, r2.2)
           else
             let r3 := dfsF R C s fuel (p.1, p.2 - 1) r2.2
             if ¬ r3.1 then (false, r3.2)
             else dfsF R C s fuel (p.1, p.2 + 1) r3.2) := by
  simp only [dfsF]
  rw [if_neg (not_not_intro h1),
    if_neg (by rw [h2]; exact Bool.false_ne_true), if_neg h3]

/-! ## DfsOut for the non-recursive outcomes -/

theorem dfsOut_invalid (R C : Int) (s : CellMap) (p : Coord)
    (v : Finset Coord) (h : ¬ ValidP R C p) :
    DfsOut R C s p v (false, v) where
  grow := Finset.Subset.refl v
  dom := Finset.subset_union_left
  reach := fun q hq hnq => absurd hq hnq
  closure := fun ht => absurd ht (by simp)
  head := fun ht => absurd ht (by simp)
  escape := fun _ => Or.inl h

theorem dfsOut_colored (R C : Int) (s : CellMap) (p : Coord)
    (v : Finset Coord) (h1 : ValidP R C p) (h2 : isColored s p = true) :
    DfsOut R C s p v (true, v) where
  grow := Finset.Subset.refl v
  dom := Finset.subset_union_left
  reach := fun q hq hnq => absurd hq hnq
  closure := fun _ q hq hnq => absurd hq hnq
  head := fun _ => ⟨h1, Or.inl (by
    rw [freeP_iff_not_colored, h2]
    simp)⟩
  escape := fun hf => absurd hf (by simp)

theorem dfsOut_visited (R C : Int) (s : CellMap) (p : Coord)
    (v : Finset Coord) (h1 : ValidP R C p) (h3 : p ∈ v) :
    DfsOut R C s p v (true, v) where
  grow := Finset.Subset.refl v
  dom := Finset.subset_union_left
  reach := fun q hq hnq => absurd hq hnq
  closure := fun _ q hq hnq => absurd hq hnq
  head := fun _ => ⟨h1, Or.inr h3⟩
  escape := fun hf => absurd hf (by simp)

/-! ## Accumulator lemmas for the four sibling calls -/

theorem accW_init (R C : Int) (s : CellMap) (p : Coord)
    (v : Finset Coord) (hGp : Good R C s p) :
    AccW R C s p v (insert p v) := by
  refine ⟨Finset.Subset.refl _, ?_, ?_⟩
  · intro q hq
    rw [Finset.mem_insert] at hq
    rcases hq with rfl | hq
    · exact Finset.mem_union_right _ ((mem_goodFinset R C s q).mpr hGp)
    · exact Finset.mem_union_left _ hq
  · intro q hq hnq
    rw [Finset.mem_insert] at hq
    rcases hq with rfl | hq
    · exact Relation.ReflTransGen.refl
    · exact absurd hq hnq

theorem accC_init (R C : Int) (s : CellMap) (p : Coord)
    (v : Finset Coord) : AccC R C s p v (insert p v) := by
  intro q hq hnq hne
  rw [Finset.mem_insert] at hq
  rcases hq with rfl | hq
  · exact absurd rfl hne
  · exact absurd hq hnq

theorem accW_extend (R C : Int) (s : CellMap) (p c : Coord)
    (v w : Finset Coord) (out : Bool × Finset Coord)
    (hGp : Good R C s p) (hadj : Adj p c)
    (hw : AccW R C s p v w) (hout : DfsOut R C s c w out) :
    AccW R C s p v out.2 := by
  obtain ⟨hw1, hw2, hw3⟩ := hw
  refine ⟨hw1.trans hout.grow, ?_, ?_⟩
  · intro q hq
    rcases Finset.mem_union.mp (hout.dom hq) with hq2 | hq2
    · exact hw2 hq2
    · exact Finset.mem_union_right _ hq2
  · intro q hq hnq
    by_cases hqw : q ∈ w
    · exact hw3 q hqw hnq
    · obtain ⟨hGc, hreach⟩ := hout.reach q hq hqw
      exact Relation.ReflTransGen.trans
        (reach_single R C s p c hGp hGc hadj) hreach

theorem accC_extend (R C : Int) (s : CellMap) (p c : Coord)
    (v w : Finset Coord) (out : Bool × Finset Coord)
    (hC : AccC R C s p v w) (hout : DfsOut R C s c w out)
    (htrue : out.1 = true) : AccC R C s p v out.2 := by
  intro q hq hnq hne
  by_cases hqw : q ∈ w
  · intro d hd
    obtain ⟨hdv, hdin⟩ := hC q hqw hnq hne d hd
    refine ⟨hdv, ?_⟩
    rcases hdin with hdi | hdi
    · exact Or.inl hdi
    · exact Or.inr (hout.grow hdi)
  · exact hout.closure htrue q hq hqw

/-! ## The dfs postcondition, by induction on fuel -/

theorem dfsF_spec (R C : Int) (s : CellMap) :
    ∀ (fuel : Nat) (p : Coord) (v : Finset Coord),
      (goodFinset R C s \ v).card < fuel →
      DfsOut R C s p v (dfsF R C s fuel p v) := by
  intro fuel
  induction fuel with
  | zero =>
    intro p v h
    omega
  | succ n ih =>
    intro p v hcard
    by_cases hval : ValidP R C p
    case neg =>
      rw [dfsF_invalid R C s n p v hval]
      exact dfsOut_invalid R C s p v hval
    by_cases hcol : isColored s p = true
    · rw [dfsF_colored R C s n p v hval hcol]
      exact dfsOut_colored R C s p v hval hcol
    have hcolf : isColored s p = false := by
      cases hx : isColored s p
      · rfl
      · exact absurd hx hcol
    by_cases hvis : p ∈ v
    · rw [dfsF_visited R C s n p v hval hcolf hvis]
      exact dfsOut_visited R C s p v hval hvis
    have hfree : FreeP s p := (freeP_iff_not_colored s p).mpr hcolf
    have hGp : Good R C s p := ⟨hval, hfree⟩
    have hpG : p ∈ goodFinset R C s := (mem_goodFinset R C s p).mpr hGp
    have hpdv : p ∈ goodFinset R C s \ v := Finset.mem_sdiff.mpr ⟨hpG, hvis⟩
    have hposd : 0 < (goodFinset R C s \ v).card :=
      Finset.card_pos.mpr ⟨p, hpdv⟩
    have hins : goodFinset R C s \ insert p v
        = (goodFinset R C s \ v).erase p := by
      ext x
      simp only [Finset.mem_sdiff, Finset.mem_erase, Finset.mem_insert]
      tauto
    have hc0 : (goodFinset R C s \ insert p v).card < n := by
      rw [hins, Finset.card_erase_of_mem hpdv]
      omega
    have hmono : ∀ w w2 : Finset Coord, w ⊆ w2 →
        (goodFinset R C s \ w2).card ≤ (goodFinset R C s \ w).card :=
      fun w w2 hsub => Finset.card_le_card
        (Finset.sdiff_subset_sdiff (Finset.Subset.refl _) hsub)
    rw [dfsF_main R C s n p v hval hcolf hvis]
    have hacc0W : AccW R C s p v (insert p v) := accW_init R C s p v hGp
    have hacc0C : AccC R C s p v (insert p v) := accC_init R C s p v
    -- child 1 (up)
    rcases hr1 : dfsF R C s n (p.1 - 1, p.2) (insert p v) with ⟨b1, w1⟩
    have spec1 := ih (p.1 - 1, p.2) (insert p v) hc0
    rw [hr1] at spec1
    simp only [hr1]
    have hacc1W : AccW R C s p v w1 :=
      accW_extend R C s p _ v (insert p v) (b1, w1) hGp (adj_up p)
        hacc0W spec1
    cases b1 with
    | false =>
      rw [if_pos (by simp)]
      exact
        { grow := (Finset.subset_insert p v).trans hacc1W.1
          dom := hacc1W.2.1
          reach := fun q hq hnq => ⟨hGp, hacc1W.2.2 q hq hnq⟩
          closure := fun ht => absurd ht (by simp)
          head := fun ht => absurd ht (by simp)
          escape := fun _ => Or.inr ⟨hGp,
            escape_exit R C s p _ hGp (adj_up p) (spec1.escape rfl)⟩ }
    | true =>
      rw [if_neg (by simp)]
      have hacc1C : AccC R C s p v w1 :=
        accC_extend R C s p _ v (insert p v) (true, w1) hacc0C spec1 rfl
      have hsub1 : insert p v ⊆ w1 := spec1.grow
      have hc1 : (goodFinset R C s \ w1).card < n :=
        lt_of_le_of_lt (hmono _ _ hsub1) hc0
      -- child 2 (down)
      rcases hr2 : dfsF R C s n (p.1 + 1, p.2) w1 with ⟨b2, w2⟩
      have spec2 := ih (p.1 + 1, p.2) w1 hc1
      rw [hr2] at spec2
      simp only [hr2]
      have hacc2W : AccW R C s p v w2 :=
        accW_extend R C s p _ v w1 (b2, w2) hGp (adj_down p) hacc1W spec2
      cases b2 with
      | false =>
        rw [if_pos (by simp)]
        exact
          { grow := (Finset.subset_insert p v).trans hacc2W.1
            dom := hacc2W.2.1
            reach := fun q hq hnq => ⟨hGp, hacc2W.2.2 q hq hnq⟩
            closure := fun ht => absurd ht (by simp)
            head := fun ht => absurd ht (by simp)
            escape := fun _ => Or.inr ⟨hGp,
              escape_exit R C s p _ hGp (adj_down p) (spec2.escape rfl)⟩ }
      | true =>
        rw [if_neg (by simp)]
        have hacc2C : AccC R C s p v w2 :=
          accC_extend R C s p _ v w1 (true, w2) hacc1C spec2 rfl
        have hsub2 : w1 ⊆ w2 := spec2.grow
        have hc2 : (goodFinset R C s \ w2).card < n :=
          lt_of_le_of_lt (hmono _ _ (hsub1.trans hsub2)) hc0
        -- child 3 (left)
        rcases hr3 : dfsF R C s n (p.1, p.2 - 1) w2 with ⟨b3, w3⟩
        have spec3 := ih (p.1, p.2 - 1) w2 hc2
        rw [hr3] at spec3
        simp only [hr3]
        have hacc3W : AccW R C s p v w3 :=
          accW_extend R C s p _ v w2 (b3, w3) hGp (adj_left p) hacc2W spec3
        cases b3 with
        | false =>
          rw [if_pos (by simp)]
          exact
            { grow := (Finset.subset_insert p v).trans hacc3W.1
              dom := hacc3W.2.1
              reach := fun q hq hnq => ⟨hGp, hacc3W.2.2 q hq hnq⟩
              closure := fun ht => absurd ht (by simp)
              head := fun ht => absurd ht (by simp)
              escape := fun _ => Or.inr ⟨hGp,
                escape_exit R C s p _ hGp (adj_left p) (spec3.escape rfl)⟩ }
        | true =>
          rw [if_neg (by simp)]
          have hacc3C : AccC R C s p v w3 :=
            accC_extend R C s p _ v w2 (true, w3) hacc2C spec3 rfl
          have hsub3 : w2 ⊆ w3 := spec3.grow
          have hc3 : (goodFinset R C s \ w3).card < n :=
            lt_of_le_of_lt (hmono _ _ ((hsub1.trans hsub2).trans hsub3)) hc0
          -- child 4 (right)
          rcases hr4 : dfsF R C s n (p.1, p.2 + 1) w3 with ⟨b4, w4⟩
          have spec4 := ih (p.1, p.2 + 1) w3 hc3
          rw [hr4] at spec4
          have hacc4W : AccW R C s p v w4 :=
            accW_extend R C s p _ v w3 (b4, w4) hGp (adj_right p) hacc3W
              spec4
          cases b4 with
          | false =>
            exact
              { grow := (Finset.subset_insert p v).trans hacc4W.1
                dom := hacc4W.2.1
                reach := fun q hq hnq => ⟨hGp, hacc4W.2.2 q hq hnq⟩
                closure := fun ht => absurd ht (by simp)
                head := fun ht => absurd ht (by simp)
                escape := fun _ => Or.inr ⟨hGp,
                  escape_exit R C s p _ hGp (adj_right p)
                    (spec4.escape rfl)⟩ }
          | true =>
            have hacc4C : AccC R C s p v w4 :=
              accC_extend R C s p _ v w3 (true, w4) hacc3C spec4 rfl
            have hw1to4 : w1 ⊆ w4 := (hsub2.trans hsub3).trans spec4.grow
            have hw2to4 : w2 ⊆ w4 := hsub3.trans spec4.grow
            have hw3to4 : w3 ⊆ w4 := spec4.grow
            refine
              { grow := (Finset.subset_insert p v).trans hacc4W.1
                dom := hacc4W.2.1
                reach := fun q hq hnq => ⟨hGp, hacc4W.2.2 q hq hnq⟩
                closure := ?_
                head := fun _ => ⟨hval,
                  Or.inr (hacc4W.1 (Finset.mem_insert_self p v))⟩
                escape := fun hf => absurd hf (by simp) }
            intro _ q hq hnq d hd
            by_cases hqp : q = p
            · subst hqp
              simp only [nbrs, List.mem_cons, List.not_mem_nil,
                or_false] at hd
              rcases hd with rfl | rfl | rfl | rfl
              · obtain ⟨hv1, hi1⟩ := spec1.head rfl
                refine ⟨hv1, ?_⟩
                rcases hi1 with hx | hx
                · exact Or.inl hx
                · exact Or.inr (hw1to4 hx)
              · obtain ⟨hv2, hi2⟩ := spec2.head rfl
                refine ⟨hv2, ?_⟩
                rcases hi2 with hx | hx
                · exact Or.inl hx
                · exact Or.inr (hw2to4 hx)
              · obtain ⟨hv3, hi3⟩ := spec3.head rfl
                refine ⟨hv3, ?_⟩
                rcases hi3 with hx | hx
                · exact Or.inl hx
                · exact Or.inr (hw3to4 hx)
              · obtain ⟨hv4, hi4⟩ := spec4.head rfl
                exact ⟨hv4, hi4⟩
            · exact hacc4C q hq hnq hqp d hd

/-! ## Top-level consequences of the dfs postcondition -/

theorem dfs_run_true (R C : Int) (s : CellMap) (p : Coord)
    (hGp : Good R C s p)
    (ht : (dfsF R C s (fillFuel R C) p ∅).1 = true) :
    p ∈ (dfsF R C s (fillFuel R C) p ∅).2
  ∧ (∀ q ∈ (dfsF R C s (fillFuel R C) p ∅).2,
      Good R C s q ∧ Reach R C s p q)
  ∧ (∀ q, Reach R C s p q → q ∈ (dfsF R C s (fillFuel R C) p ∅).2)
  ∧ ¬ EscapesP R C s p := by
  have hcard : (goodFinset R C s \ (∅ : Finset Coord)).card
      < fillFuel R C := by
    rw [Finset.sdiff_empty]
    exact goodFinset_card_lt_fillFuel R C s
  have spec := dfsF_spec R C s (fillFuel R C) p ∅ hcard
  have hpmem : p ∈ (dfsF R C s (fillFuel R C) p ∅).2 := by
    obtain ⟨hv, hor⟩ := spec.head ht
    rcases hor with hx | hx
    · exact absurd hGp.2 hx
    · exact hx
  have hgoodreach : ∀ q ∈ (dfsF R C s (fillFuel R C) p ∅).2,
      Good R C s q ∧ Reach R C s p q := by
    intro q hq
    have hd := spec.dom hq
    rw [Finset.empty_union, mem_goodFinset] at hd
    exact ⟨hd, (spec.reach q hq (Finset.not_mem_empty q)).2⟩
  have hcomp : ∀ q, Reach R C s p q →
      q ∈ (dfsF R C s (fillFuel R C) p ∅).2 := by
    intro q hreach
    induction hreach with
    | refl => exact hpmem
    | tail hab hbc ih =>
      obtain ⟨hGb, hGc, hadjbc⟩ := hbc
      obtain ⟨hvald, hor⟩ :=
        spec.closure ht _ ih (Finset.not_mem_empty _) _ hadjbc
      rcases hor with hx | hx
      · exact absurd hGc.2 hx
      · exact hx
  refine ⟨hpmem, hgoodreach, hcomp, ?_⟩
  rintro ⟨q, hreach, d, hadjd, hnv⟩
  have hqmem := hcomp q hreach
  obtain ⟨hvald, _⟩ :=
    spec.closure ht q hqmem (Finset.not_mem_empty q) d hadjd
  exact hnv hvald

theorem dfs_run_false (R C : Int) (s : CellMap) (p : Coord)
    (hGp : Good R C s p)
    (hf : (dfsF R C s (fillFuel R C) p ∅).1 = false) :
    EscapesP R C s p := by
  have hcard : (goodFinset R C s \ (∅ : Finset Coord)).card
      < fillFuel R C := by
    rw [Finset.sdiff_empty]
    exact goodFinset_card_lt_fillFuel R C s
  have spec := dfsF_spec R C s (fillFuel R C) p ∅ hcard
  rcases spec.escape hf with hx | ⟨_, hesc⟩
  · exact absurd hGp.1 hx
  · exact hesc

theorem mem_coordList (R C : Int) (p : Coord) :
    p ∈ coordList R C ↔ ValidP R C p := by
  unfold coordList ValidP
  constructor
  · intro h
    rw [List.mem_flatMap] at h
    obtain ⟨r, hr, hm⟩ := h
    rw [List.mem_map] at hm
    obtain ⟨c, hc, rfl⟩ := hm
    rw [List.mem_range] at hr hc
    show 0 ≤ ((r : Nat) : Int) ∧ ((r : Nat) : Int) < R
      ∧ 0 ≤ ((c : Nat) : Int) ∧ ((c : Nat) : Int) < C
    refine ⟨by omega, by omega, by omega, by omega⟩
  · rintro ⟨h1, h2, h3, h4⟩
    rw [List.mem_flatMap]
    refine ⟨p.1.toNat, ?_, ?_⟩
    · rw [List.mem_range]
      omega
    · rw [List.mem_map]
      refine ⟨p.2.toNat, by rw [List.mem_range]; omega, ?_⟩
      exact Prod.ext (by simp [Int.toNat_of_nonneg h1])
        (by simp [Int.toNat_of_nonneg h3])

theorem covers_iff_enclosed (R C : Int) (s : CellMap) (k : Coord) :
    (∃ p ∈ coordList R C, Covers R C s p k)
      ↔ EnclosedCell R C s k := by
  constructor
  · rintro ⟨p, hpL, hc⟩
    obtain ⟨hcolp, htrue, hkmem⟩ := hc
    have hpval : ValidP R C p := (mem_coordList R C p).mp hpL
    have hGp : Good R C s p :=
      ⟨hpval, (freeP_iff_not_colored s p).mpr hcolp⟩
    obtain ⟨hpm, hallq, hcomp, hnesc⟩ := dfs_run_true R C s p hGp htrue
    obtain ⟨hGk, hreach⟩ := hallq k hkmem
    exact ⟨hGk, fun hesc => hnesc (escapes_of_reach R C s p k hreach hesc)⟩
  · rintro ⟨hGk, hnesc⟩
    have htrue : (dfsF R C s (fillFuel R C) k ∅).1 = true := by
      cases hb : (dfsF R C s (fillFuel R C) k ∅).1
      · exact absurd (dfs_run_false R C s k hGk hb) hnesc
      · rfl
    exact ⟨k, (mem_coordList R C k).mpr hGk.1,
      (freeP_iff_not_colored s k).mp hGk.2, htrue,
      (dfs_run_true R C s k hGk htrue).1⟩

/-! ## The outer double loop -/

theorem fillStep_covered (R C : Int) (s : CellMap) (paint : CellAttrs)
    (m : CellMap) (p k : Coord) (h : Covers R C s p k) :
    fillStep R C s paint m p k = some paint := by
  obtain ⟨h1, h2, h3⟩ := h
  unfold fillStep
  rw [if_neg (by rw [h1]; exact Bool.false_ne_true)]
  show (if (dfsF R C s (fillFuel R C) p ∅).1 = true then
      paintAll m (dfsF R C s (fillFuel R C) p ∅).2 paint
    else m) k = some paint
  rw [if_pos h2]
  unfold paintAll
  rw [if_pos h3]

theorem fillStep_not_covered (R C : Int) (s : CellMap)
    (paint : CellAttrs) (m : CellMap) (p k : Coord)
    (h : ¬ Covers R C s p k) :
    fillStep R C s paint m p k = m k := by
  unfold fillStep
  by_cases hcol : isColored s p = true
  · rw [if_pos hcol]
  · rw [if_neg hcol]
    have hcolf : isColored s p = false := by
      cases hx : isColored s p
      · rfl
      · exact absurd hx hcol
    show (if (dfsF R C s (fillFuel R C) p ∅).1 = true then
        paintAll m (dfsF R C s (fillFuel R C) p ∅).2 paint
      else m) k = m k
    by_cases hb : (dfsF R C s (fillFuel R C) p ∅).1 = true
    · rw [if_pos hb]
      unfold paintAll
      rw [if_neg (fun hk => h ⟨hcolf, hb, hk⟩)]
    · rw [if_neg hb]

theorem foldl_fillStep_not_covered (R C : Int) (s : CellMap)
    (paint : CellAttrs) :
    ∀ (L : List Coord) (m : CellMap) (k : Coord),
      (∀ p ∈ L, ¬ Covers R C s p k) →
      (L.foldl (fillStep R C s paint) m) k = m k := by
  intro L
  induction L with
  | nil =>
    intro m k _
    rfl
  | cons p L ih =>
    intro m k h
    show (L.foldl (fillStep R C s paint) (fillStep R C s paint m p)) k
      = m k
    rw [ih _ k (fun q hq => h q (List.mem_cons_of_mem p hq))]
    exact fillStep_not_covered R C s paint m p k
      (h p (List.mem_cons_self p L))

theorem foldl_fillStep_covered (R C : Int) (s : CellMap)
    (paint : CellAttrs) :
    ∀ (L : List Coord) (m : CellMap) (k p : Coord), p ∈ L →
      Covers R C s p k →
      (L.foldl (fillStep R C s paint) m) k = some paint := by
  intro L
  induction L with
  | nil =>
    intro m k p hp _
    exact absurd hp (List.not_mem_nil p)
  | cons q L ih =>
    intro m k p hp hcov
    show (L.foldl (fillStep R C s paint) (fillStep R C s paint m q)) k
      = some paint
    by_cases hex : ∃ r ∈ L, Covers R C s r k
    · obtain ⟨r, hr, hcr⟩ := hex
      exact ih _ k r hr hcr
    · push_neg at hex
      have hpq : p = q := by
        rcases List.mem_cons.mp hp with rfl | hpL
        · rfl
        · exact absurd hcov (hex p hpL)
      subst hpq
      rw [foldl_fillStep_not_covered R C s paint L _ k hex]
      exact fillStep_covered R C s paint m p k hcov

/-- **C1 (confirmed).**  For every store and positive `rowCount`,
`colCount`: the store computed by `fillEnclosedAreas` agrees with the
claim — every cell of an enclosed region (an inactive in-grid cell whose
maximal 4-connected inactive region cannot reach the grid boundary
without crossing an active cell) is set to the currently selected paint
attributes, and every other cell — active cells, inactive cells whose
region reaches the boundary, and out-of-grid records — keeps its original
value.  The 3×3 perimeter-ring instances of the claim follow by
instantiation (see the witness). -/
theorem fillCells_enclosed_spec (R C : Int) (_hR : 0 < R) (_hC : 0 < C)
    (s : CellMap) (paint : CellAttrs) (k : Coord) :
    (EnclosedCell R C s k → fillCells R C s paint k = some paint)
  ∧ (¬ EnclosedCell R C s k → fillCells R C s paint k = s k) := by
  constructor
  · intro h
    obtain ⟨p, hpL, hcov⟩ := (covers_iff_enclosed R C s k).mpr h
    exact foldl_fillStep_covered R C s paint (coordList R C) s k p hpL hcov
  · intro h
    refine foldl_fillStep_not_covered R C s paint (coordList R C) s k ?_
    intro p hpL hcov
    exact h ((covers_iff_enclosed R C s k).mp ⟨p, hpL, hcov⟩)

/-- Witness for `fillCells_enclosed_spec`, instantiated at the claim's own
3×3 example: the eight perimeter cells active, the centre `(1, 1)`
inactive. -/
theorem fillCells_enclosed_spec_witness :
    ((0 : Int) < 3 ∧ (0 : Int) < 3)
  ∧ ((EnclosedCell 3 3 perimStore (1, 1) →
        fillCells 3 3 perimStore blackPaint (1, 1) = some blackPaint)
  ∧ (¬ EnclosedCell 3 3 perimStore (1, 1) →
        fillCells 3 3 perimStore blackPaint (1, 1) = perimStore (1, 1))) :=
  ⟨⟨by decide, by decide⟩,
   fillCells_enclosed_spec 3 3 (by decide) (by decide) perimStore
     blackPaint (1, 1)⟩

/-- Direct evaluation of the claim's first 3×3 instance: with all eight
perimeter cells active and the centre inactive, the fill activates the
centre. -/
theorem fill_ring_center_active :
    fillCells 3 3 perimStore blackPaint (1, 1) = some blackPaint := by
  decide

/-- Direct evaluation of the claim's second 3×3 instance: with perimeter
cell `(0, 1)` inactive, the centre's region reaches the boundary and the
centre stays inactive. -/
theorem fill_gap_center_inactive :
    fillCells 3 3 gapStore blackPaint (1, 1) = none := by
  decide

